import Mathlib

set_option autoImplicit false

/-!
Shallow embedding of the row-access, indexing and join engine of the
`python-dwca-reader` package (`dwca/files.py`, `dwca/rows.py`,
`dwca/star_record.py`, with the descriptor data model of
`dwca/descriptors.py`), together with theorems settling the claims
about it.  Files are modelled at line granularity: a data file is the
list of its decoded physical lines (each line carrying its terminator,
exactly as Python text-stream iteration yields them).
-/

/-- The Python exceptions that the embedded code can raise. `invalidArchive`
is the package's own `dwca.exceptions.InvalidArchive`. -/
inductive PyError where
  | indexError
  | attributeError
  | typeError
  | invalidArchive
deriving DecidableEq

/-- Python sequence subscription `xs[i]` on a list/array: a nonnegative index
counts from the front, a negative index `i` is interpreted as `len(xs) + i`,
and anything still out of range is an `IndexError` (modelled as `none`). -/
def pyIdx {α : Type} (xs : List α) (i : Int) : Option α :=
  if 0 ≤ i then xs.get? i.toNat
  else if 0 ≤ i + xs.length then xs.get? (i + (xs.length : Int)).toNat
  else none

/-- Leading `str.strip` pass: drop leading characters belonging to `chars`. -/
def dropLeading (chars : List Char) (l : List Char) : List Char :=
  l.dropWhile (chars.contains ·)

/-- Python `str.strip(chars)` at character-list level: remove from both ends
every character contained in `chars`.  `strip("")` removes nothing. -/
def pyStripChars (l : List Char) (chars : List Char) : List Char :=
  ((dropLeading chars l).reverse.dropWhile (chars.contains ·)).reverse

/-- Python `str.rstrip(chars)`: remove from the right end every character
contained in `chars`. -/
def pyRstrip (s : String) (chars : List Char) : String :=
  ((s.toList.reverse.dropWhile (chars.contains ·)).reverse).asString

/-- Number of lines consumed by Python `IOBase.readlines(hint)` for a positive
`hint`: lines are read one at a time and reading stops as soon as the total
number of characters read exceeds `hint`.  The argument is a size hint, not a
line count (`CSVDataFile._position_file_after_header` passes `lines_to_ignore`
to it). -/
def readlinesHintCount : List String → Nat → Nat
  | [], _ => 0
  | l :: ls, hint =>
    if hint < l.length then 1 else 1 + readlinesHintCount ls (hint - l.length)

/-- Parser states of the CPython `csv` reader field-splitting state machine
(`START_FIELD`, `IN_FIELD`, `IN_QUOTED_FIELD`, `QUOTE_IN_QUOTED_FIELD`). -/
inductive QState where
  | startField
  | inField
  | inQuoted
  | quoteInQuoted
deriving DecidableEq

/-- One pass of the CPython `csv` reader over the characters of a single line
(no embedded newline), with `doublequote=True`, `strict=False`, no escape char
and `skipinitialspace=False`.  `quoting = false` models `QUOTE_NONE` (the
quote character is never special); `quoting = true` models the quote-aware
parse used with `QUOTE_ALL`.  `q` is the quote char, `d` the delimiter,
`cur` the accumulated current field in reverse. -/
def csvScan (quoting : Bool) (q d : Char) : QState → List Char → List Char → List (List Char)
  | _, cur, [] => [cur.reverse]
  | .startField, cur, c :: rest =>
    if quoting ∧ c = q then csvScan quoting q d .inQuoted cur rest
    else if c = d then cur.reverse :: csvScan quoting q d .startField [] rest
    else csvScan quoting q d .inField (c :: cur) rest
  | .inField, cur, c :: rest =>
    if c = d then cur.reverse :: csvScan quoting q d .startField [] rest
    else csvScan quoting q d .inField (c :: cur) rest
  | .inQuoted, cur, c :: rest =>
    if c = q then csvScan quoting q d .quoteInQuoted cur rest
    else csvScan quoting q d .inQuoted (c :: cur) rest
  | .quoteInQuoted, cur, c :: rest =>
    if c = q then csvScan quoting q d .inQuoted (q :: cur) rest
    else if c = d then cur.reverse :: csvScan quoting q d .startField [] rest
    else csvScan quoting q d .inField (c :: cur) rest

/-- Parse one CSV line into raw (not yet stripped) fields.  A completely empty
line yields no fields at all, matching `csv.reader`. -/
def csvParse (quoting : Bool) (q d : Char) (line : String) : List (List Char) :=
  if line = "" then [] else csvScan quoting q d .startField [] line.toList

/-- `dwca.rows.csv_line_to_fields`: right-strip the line terminator, then
split either naively (`QUOTE_NONE`, when `fields_enclosed_by` is the empty
string, in which case `strip("")` removes nothing) or with the quote-aware
parse (`QUOTE_ALL` with `quotechar=fields_enclosed_by`) followed by
`field.strip(fields_enclosed_by)`.  `csv.reader` requires a one-character
quote char, so a longer enclosure string raises `TypeError`; the field
terminator is likewise taken as a single character. -/
def csv_line_to_fields (csvLine : String) (lineEnding : String) (fieldEnding : Char)
    (fieldsEnclosedBy : String) : Except PyError (List String) :=
  let line := pyRstrip csvLine lineEnding.toList
  if fieldsEnclosedBy = "" then
    .ok ((csvParse false '"' fieldEnding line).map (fun f => (pyStripChars f []).asString))
  else
    match fieldsEnclosedBy.toList with
    | [q] => .ok ((csvParse true q fieldEnding line).map (fun f => (pyStripChars f [q]).asString))
    | _ => .error .typeError

/-- One `<field>` entry of `dwca.descriptors.DataFileDescriptor.fields`: the
term identifier, the column index in the CSV file (if any) and the default
value (if any). -/
structure FieldSpec where
  term : String
  index : Option Nat
  default : Option String
deriving DecidableEq

/-- `dwca.descriptors.DataFileDescriptor`, restricted to the attributes the
row-access engine reads.  `lines_to_ignore` is the value of the
`ignoreHeaderLines` metafile attribute (or `1` for descriptors created by file
inspection); `fields_terminated_by` is a single character because `csv.reader`
requires a one-character delimiter. -/
structure DataFileDescriptor where
  represents_corefile : Bool
  datafile_type : Option String
  id_index : Option Nat
  coreid_index : Option Nat
  fields : List FieldSpec
  lines_terminated_by : String
  fields_enclosed_by : String
  fields_terminated_by : Char
  lines_to_ignore : Nat
deriving DecidableEq

/-- `dwca.files.CSVDataFile`: the descriptor plus the decoded physical lines
of the file (header lines included, each line carrying its terminator exactly
as Python text-stream iteration yields it, so every line is nonempty). -/
structure CSVDataFile where
  file_descriptor : DataFileDescriptor
  lines : List String
deriving DecidableEq

/-- The dictionary that `Row.__init__` builds in `self.data`, as an
insertion-ordered association list; assignment `data[k] = v` overwrites an
existing entry in place (keys are unique by construction) or appends a fresh
one. -/
def dictInsert : List (String × String) → String → String → List (String × String)
  | [], k, v => [(k, v)]
  | p :: ps, k, v => if p.1 == k then (k, v) :: ps else p :: dictInsert ps k v

/-- Dictionary lookup `data[k]` on the association list built by `dictInsert`. -/
def dictLookup (data : List (String × String)) (k : String) : Option String :=
  (data.find? (fun p => p.1 == k)).map Prod.snd

/-- One iteration of the field loop of `Row.__init__`: a field with a default
takes the default; otherwise `int(f['index'])` raises `TypeError` when the
index is absent, and `raw_fields[index]` out of range raises the
`InvalidArchive` error ("The descriptor references a non-existent field"). -/
def buildDataStep (raws : List String) (data : List (String × String)) (f : FieldSpec) :
    Except PyError (List (String × String)) :=
  match f.default with
  | some d => .ok (dictInsert data f.term d)
  | none =>
    match f.index with
    | none => .error .typeError
    | some i =>
      match raws.get? i with
      | some v => .ok (dictInsert data f.term v)
      | none => .error .invalidArchive

/-- The field loop of `Row.__init__` building `self.data`. -/
def buildData (fields : List FieldSpec) (raws : List String) :
    Except PyError (List (String × String)) :=
  fields.foldlM (buildDataStep raws) []

/-- `dwca.rows.ExtensionRow`: its fields are exactly the components of
`ExtensionRow.__key()`, so structural equality of these records coincides with
the `__eq__` of the source. -/
structure ExtensionRow where
  descriptor : DataFileDescriptor
  position : Int
  rowtype : Option String
  raw_fields : List String
  data : List (String × String)
  core_id : String
deriving DecidableEq

/-- `dwca.rows.CoreRow`.  `extension_data_files` is `none` until
`link_extension_files` is called and `source_metadata` is `none` until
`link_source_metadata` is called (accessing either before linking raises
`AttributeError` in the source). -/
structure CoreRow where
  descriptor : DataFileDescriptor
  position : Int
  rowtype : Option String
  raw_fields : List String
  data : List (String × String)
  id : Option String
  extension_data_files : Option (List CSVDataFile)
  source_metadata : Option (Option String)
deriving DecidableEq

/-- The union type returned by `CSVDataFile.get_row_by_position`. -/
inductive RowU where
  | core (r : CoreRow)
  | ext (r : ExtensionRow)
deriving DecidableEq

/-- `ExtensionRow.__init__` (including the common `Row.__init__` part):
split the line, build the data dict, then read the core id from
`raw_fields[descriptor.coreid_index]` (`raw_fields[None]` is a `TypeError`,
an out-of-range index an `IndexError`). -/
def mkExtensionRow (csvLine : String) (position : Int) (d : DataFileDescriptor) :
    Except PyError ExtensionRow := do
  let raws ← csv_line_to_fields csvLine d.lines_terminated_by d.fields_terminated_by
      d.fields_enclosed_by
  let data ← buildData d.fields raws
  match d.coreid_index with
  | none => .error .typeError
  | some i =>
    match raws.get? i with
    | some cid => .ok ⟨d, position, d.datafile_type, raws, data, cid⟩
    | none => .error .indexError

/-- `CoreRow.__init__` (including the common `Row.__init__` part): the row id
is `raw_fields[descriptor.id_index]` when an id column is declared, `None`
otherwise; linkage attributes start unset. -/
def mkCoreRow (csvLine : String) (position : Int) (d : DataFileDescriptor) :
    Except PyError CoreRow := do
  let raws ← csv_line_to_fields csvLine d.lines_terminated_by d.fields_terminated_by
      d.fields_enclosed_by
  let data ← buildData d.fields raws
  match d.id_index with
  | none => .ok ⟨d, position, d.datafile_type, raws, data, none, none, none⟩
  | some i =>
    match raws.get? i with
    | some v => .ok ⟨d, position, d.datafile_type, raws, data, some v, none, none⟩
    | none => .error .indexError

/-- `CSVDataFile._position_file_after_header` followed by exhausting the
iterator: the stream is rewound and, when there are header lines to ignore,
`readlines(lines_to_ignore)` is called (a size hint, see
`readlinesHintCount`); iteration then yields the remaining lines. -/
def iterLines (f : CSVDataFile) : List String :=
  if 0 < f.file_descriptor.lines_to_ignore then
    f.lines.drop (readlinesHintCount f.lines f.file_descriptor.lines_to_ignore)
  else f.lines

/-- Helper for `_get_all_line_offsets`: the running `offset` accumulator. -/
def lineOffsetsFrom (encLen : String → Nat) : Nat → List String → List Nat
  | _, [] => []
  | offset, l :: ls => offset :: lineOffsetsFrom encLen (offset + encLen l) ls

/-- `dwca.files._get_all_line_offsets`: one forward pass recording, for every
physical line, the byte offset at which it begins; `encLen line` models
`len(line.encode(encoding))`, the encoded byte length of the decoded line. -/
def get_all_line_offsets (lines : List String) (encLen : String → Nat) : List Nat :=
  lineOffsetsFrom encLen 0 lines

/-- `CSVDataFile._get_line_by_position`: index the `_line_offsets` array at
`position + lines_to_ignore` (Python indexing, so negative values wrap around;
the array has one entry per physical line) and read one line there.  Since
`_line_offsets[i]` is the start offset of physical line `i` and every physical
line is a nonempty string, `seek(_line_offsets[i])` followed by `readline()`
returns physical line `i`; the model therefore returns `lines[i]` directly. -/
def getLineByPosition (f : CSVDataFile) (position : Int) : Except PyError String :=
  match pyIdx f.lines (position + f.file_descriptor.lines_to_ignore) with
  | some l => .ok l
  | none => .error .indexError

/-- The row-construction dispatch of `CSVDataFile.get_row_by_position`:
a `CoreRow` for a core data file, an `ExtensionRow` otherwise. -/
def rowFromLine (d : DataFileDescriptor) (line : String) (position : Int) :
    Except PyError RowU :=
  if d.represents_corefile then (mkCoreRow line position d).map RowU.core
  else (mkExtensionRow line position d).map RowU.ext

/-- `CSVDataFile.get_row_by_position`. -/
def get_row_by_position (f : CSVDataFile) (position : Int) : Except PyError RowU := do
  let line ← getLineByPosition f position
  rowFromLine f.file_descriptor line position

/-- `index.setdefault(core_id, array('L')).append(position)`: append `pos` to
the position list of key `k`, creating the entry on first occurrence. -/
def indexInsert (idx : List (String × List Nat)) (k : String) (pos : Nat) :
    List (String × List Nat) :=
  if idx.any (fun p => p.1 == k) then
    idx.map (fun p => if p.1 == k then (p.1, p.2 ++ [pos]) else p)
  else idx ++ [(k, [pos])]

/-- `CSVDataFile._build_coreid_index`: enumerate the file's iterator,
materialize every yielded line as an `ExtensionRow` and record its position
under its core id. -/
def build_coreid_index (f : CSVDataFile) : Except PyError (List (String × List Nat)) :=
  (iterLines f).enum.foldlM
    (fun idx pl => do
      let row ← mkExtensionRow pl.2 (pl.1 : Int) f.file_descriptor
      pure (indexInsert idx row.core_id pl.1))
    []

/-- The `CSVDataFile.coreid_index` property: raises `AttributeError` on a core
data file, otherwise builds (and caches — irrelevant in the pure model) the
core-id index. -/
def coreid_index (f : CSVDataFile) : Except PyError (List (String × List Nat)) :=
  if f.file_descriptor.represents_corefile then .error .attributeError
  else build_coreid_index f

/-- The keys of a core-id index (in Python: dictionary key iteration order =
insertion order). -/
def indexKeys (idx : List (String × List Nat)) : List String :=
  idx.map Prod.fst

/-- Position list recorded for key `k` (defined for keys present in the
index). -/
def indexFind (idx : List (String × List Nat)) (k : String) : List Nat :=
  ((idx.find? (fun p => p.1 == k)).map Prod.snd).getD []

/-- `CSVDataFile.get_all_rows_by_coreid`: an absent key (including the `None`
id of an id-less core row) yields the empty list; otherwise every recorded
position is materialized through `get_row_by_position`. -/
def get_all_rows_by_coreid (f : CSVDataFile) (core_id : Option String) :
    Except PyError (List RowU) := do
  let idx ← coreid_index f
  match core_id with
  | none => .ok []
  | some k =>
    if (indexKeys idx).contains k then
      (indexFind idx k).mapM (fun p => get_row_by_position f (p : Int))
    else .ok []

/-- Number of data rows of a file as the claims define it: physical line count
minus the header lines to skip (the spec's `rowCount()`; the source has no
such method). -/
def rowCount (f : CSVDataFile) : Nat :=
  f.lines.length - f.file_descriptor.lines_to_ignore

/-- `CoreRow.link_extension_files`. -/
def link_extension_files (r : CoreRow) (files : List CSVDataFile) : CoreRow :=
  ⟨r.descriptor, r.position, r.rowtype, r.raw_fields, r.data, r.id, some files,
    r.source_metadata⟩

/-- The term whose value selects the row-level metadata in
`CoreRow.link_source_metadata`. -/
def datasetID_term : String :=
  "http://rs.tdwg.org/dwc/terms/datasetID"

/-- `CoreRow.link_source_metadata`: when the archive has source metadata and
the row has a datasetID value, look that value up (a missing key gives
`None`); the attribute is set in every case. -/
def link_source_metadata (r : CoreRow) (archive_source_metadata : List (String × String)) :
    CoreRow :=
  let m :=
    if archive_source_metadata ≠ [] ∧ (dictLookup r.data datasetID_term).isSome then
      match dictLookup r.data datasetID_term with
      | some v => dictLookup archive_source_metadata v
      | none => none
    else none
  ⟨r.descriptor, r.position, r.rowtype, r.raw_fields, r.data, r.id,
    r.extension_data_files, some m⟩

/-- The `CoreRow.extensions` property: `AttributeError` when
`link_extension_files` was never called, otherwise the concatenation of
`get_all_rows_by_coreid(self.id)` over the linked extension data files. -/
def coreRowExtensions (r : CoreRow) : Except PyError (List RowU) :=
  match r.extension_data_files with
  | none => .error .attributeError
  | some files =>
    files.foldlM
      (fun acc f => do
        let rs ← get_all_rows_by_coreid f r.id
        pure (acc ++ rs))
      []

/-- The components of the tuple returned by `CoreRow.__key()`, in source
order. -/
structure CoreKey where
  descriptor : DataFileDescriptor
  id : Option String
  data : List (String × String)
  extensions : List RowU
  source_metadata : Option String
  rowtype : Option String
  raw_fields : List String
  position : Int
deriving DecidableEq

/-- `CoreRow.__key()`: the tuple `(descriptor, id, data, extensions,
source_metadata, rowtype, raw_fields, position)`; evaluating it raises
`AttributeError` when the linkage attributes are unset. -/
def coreRowKey (r : CoreRow) : Except PyError CoreKey := do
  let exts ← coreRowExtensions r
  match r.source_metadata with
  | none => .error .attributeError
  | some sm => .ok ⟨r.descriptor, r.id, r.data, exts, sm, r.rowtype, r.raw_fields, r.position⟩

/-- `CoreRow.__eq__`: structural comparison of the two `__key()` tuples. -/
def coreRowEq (r1 r2 : CoreRow) : Except PyError Bool := do
  let k1 ← coreRowKey r1
  let k2 ← coreRowKey r2
  pure (decide (k1 = k2))

/-- `ExtensionRow.__key()`: `(descriptor, core_id, data, rowtype, raw_fields,
position)`. -/
def extRowKey (r : ExtensionRow) :
    DataFileDescriptor × String × List (String × String) × Option String ×
      List String × Int :=
  (r.descriptor, r.core_id, r.data, r.rowtype, r.raw_fields, r.position)

/-- `ExtensionRow.__eq__`: structural comparison of the two `__key()` tuples. -/
def extRowEq (r1 r2 : ExtensionRow) : Bool :=
  decide (extRowKey r1 = extRowKey r2)

/-- The two join modes of `StarRecordIterator`. -/
inductive JoinHow where
  | inner
  | outer
deriving DecidableEq

/-- Python set intersection `&=` restricted to the key lists at hand: keep the
keys of `acc` that also occur in `ks`. -/
def keysInter (acc ks : List String) : List String :=
  acc.filter (fun k => ks.contains k)

/-- Python set union `|=` on the key lists at hand: append the keys of `ks`
not yet in `acc`. -/
def keysUnion (acc ks : List String) : List String :=
  acc ++ ks.filter (fun k => !(acc.contains k))

/-- The `common_core` computation of `StarRecordIterator.__init__`: start from
the key set of `files_to_join[0].coreid_index` (an empty file list raises
`IndexError` there) and fold the remaining files' key sets with intersection
(inner) or union (outer).  Python sets are unordered; the model keeps one
fixed enumeration, which is irrelevant to per-key record counts. -/
def starCommonCore (files : List CSVDataFile) (how : JoinHow) :
    Except PyError (List String) :=
  match files with
  | [] => .error .indexError
  | f0 :: rest => do
    let idx0 ← coreid_index f0
    rest.foldlM
      (fun acc f => do
        let idx ← coreid_index f
        pure (match how with
          | .inner => keysInter acc (indexKeys idx)
          | .outer => keysUnion acc (indexKeys idx)))
      (indexKeys idx0)

/-- `itertools.product` over a list of position lists (rightmost factor
varies fastest). -/
def listProd {α : Type} : List (List α) → List (List α)
  | [] => [[]]
  | l :: ls => l.flatMap (fun x => (listProd ls).map (fun t => x :: t))

/-- The position lists, in file order, of the files whose `coreid_index`
contains key `k` (`_files_with_current_coreid` in `StarRecordIterator`). -/
def participatingPositionLists (files : List CSVDataFile) (k : String) :
    Except PyError (List (List Nat)) :=
  files.foldrM
    (fun f acc => do
      let idx ← coreid_index f
      pure (if (indexKeys idx).contains k then indexFind idx k :: acc else acc))
    []

/-- The star records `StarRecordIterator.__next__` emits for one key: every
element of the Cartesian product of the participating files' position lists,
as a tuple of row positions aligned with `_files_with_current_coreid` (each
emitted record is a generator that materializes the row at each position via
`get_row_by_position` when consumed). -/
def starRecordsForKey (files : List CSVDataFile) (k : String) :
    Except PyError (List (List Nat)) := do
  let pls ← participatingPositionLists files k
  pure (listProd pls)

/-- Exhausting a `StarRecordIterator`: for every key of `common_core`, the
records of that key. -/
def starRecords (files : List CSVDataFile) (how : JoinHow) :
    Except PyError (List (String × List (List Nat))) := do
  let keys ← starCommonCore files how
  keys.mapM (fun k => do
    let recs ← starRecordsForKey files k
    pure (k, recs))

/-- Descriptor shared by the extension files of the star-join scenario:
an extension file whose core-id sits in column 0 (no declared fields, so row
materialization builds an empty data dict). -/
def extFileDescr : DataFileDescriptor :=
  ⟨false, some "Extension", none, some 0, [], "\n", "", ',', 0⟩

/-- Extension file A of the star-join scenario: rows for core ids
"1", "1", "2". -/
def extFileA : CSVDataFile :=
  ⟨extFileDescr, ["1,a\n", "1,b\n", "2,c\n"]⟩

/-- Extension file B of the star-join scenario: rows for core ids
"1", "1", "1", "2". -/
def extFileB : CSVDataFile :=
  ⟨extFileDescr, ["1,d\n", "1,e\n", "1,f\n", "2,g\n"]⟩

/-- Descriptor of the core file of the star-join scenario (id in column 0). -/
def coreFileDescr : DataFileDescriptor :=
  ⟨true, some "Core", some 0, none, [], "\n", "", ',', 0⟩

/-- Core file of the star-join scenario: ids "1", "2", "3", "4". -/
def coreFile : CSVDataFile :=
  ⟨coreFileDescr, ["1\n", "2\n", "3\n", "4\n"]⟩

/-- C1: the star-join cardinality claim fails on the code.  Constructing
`StarRecordIterator` over `[A, B, core]` — the concrete scenario of the claim
and of the repository's own `test_star_record.py` — evaluates
`coreid_index` on the core file inside `__init__`, which raises
`AttributeError`, so no star record is ever emitted (in inner and outer mode
alike); the per-key product cardinality (6 records for key "1", 1 for key
"2") is only realized when every joined file is an extension file. -/
theorem starJoin_with_corefile_raises :
    starCommonCore [extFileA, extFileB, coreFile] .inner = .error .attributeError ∧
    starCommonCore [extFileA, extFileB, coreFile] .outer = .error .attributeError ∧
    (starRecords [extFileA, extFileB] .inner).map
        (fun l => l.map (fun kr => (kr.1, kr.2.length))) = .ok [("1", 6), ("2", 1)] ∧
    (starRecords [extFileA, extFileB] .outer).map
        (fun l => l.map (fun kr => (kr.1, kr.2.length))) = .ok [("1", 6), ("2", 1)] :=
  ⟨rfl, rfl, rfl, rfl⟩

/-- A data file with two header lines, each longer than two characters. -/
def headerFile : CSVDataFile :=
  ⟨⟨true, none, some 0, none, [], "\n", "", ',', 2⟩,
    ["header line 1\n", "header line 2\n", "data line\n"]⟩

/-- C2: the random-access/iteration round trip fails for files with two
header lines.  `_position_file_after_header` calls
`readlines(lines_to_ignore)`, whose argument is a character-size hint rather
than a line count, so on `headerFile` it skips only one of the two header
lines: restarted iteration yields the second header line first, while
positional access (which adds `lines_to_ignore` to the position) correctly
returns the first data line. -/
theorem roundTrip_readlinesHint_divergence :
    (iterLines headerFile).head? = some "header line 2\n" ∧
    getLineByPosition headerFile 0 = .ok "data line\n" ∧
    ("header line 2\n" : String) ≠ "data line\n" :=
  ⟨rfl, rfl, by decide⟩

/-- An extension data file with two header lines, each longer than two
characters, and a single data row whose core id is "7". -/
def headeredExtFile : CSVDataFile :=
  ⟨⟨false, some "Extension", none, some 0, [], "\n", "", ',', 2⟩,
    ["headerline1\n", "headerline2\n", "7,x\n"]⟩

/-- C6: the link-key index partition fails for files with two header lines.
Because `readlines(lines_to_ignore)` treats the header count as a size hint,
building the core-id index of `headeredExtFile` iterates over the second
header line as well: the index records two positions (one of them keyed by
header content) although the file has a single data row, so the sum of the
position-list lengths differs from the data-row count. -/
theorem coreid_index_partition_divergence :
    build_coreid_index headeredExtFile = .ok [("headerline2", [0]), ("7", [1])] ∧
    ((build_coreid_index headeredExtFile).map
        (fun idx => (idx.map (fun p => p.2.length)).sum)) = .ok 2 ∧
    rowCount headeredExtFile = 1 ∧ (2 : Nat) ≠ 1 :=
  ⟨rfl, rfl, rfl, by decide⟩

/-- C7: requesting the row (or line) at any position at or beyond the number
of data rows — in particular at `rowCount()` itself — raises `IndexError`
(`position + lines_to_ignore` lands past the end of the offsets array), and
never returns a sentinel value. -/
theorem out_of_range_position_raises (f : CSVDataFile) (p : Nat) (hp : rowCount f ≤ p) :
    getLineByPosition f (p : Int) = .error .indexError ∧
    get_row_by_position f (p : Int) = .error .indexError := by
  have hlen : f.lines.length ≤ p + f.file_descriptor.lines_to_ignore := by
    unfold rowCount at hp; omega
  have h0 : (0 : Int) ≤ (p : Int) + (f.file_descriptor.lines_to_ignore : Int) := by omega
  have hnone : pyIdx f.lines ((p : Int) + (f.file_descriptor.lines_to_ignore : Int)) = none := by
    unfold pyIdx
    rw [if_pos h0, List.get?_eq_none]
    omega
  have hline : getLineByPosition f (p : Int) = .error .indexError := by
    unfold getLineByPosition
    rw [hnone]
  refine ⟨hline, ?_⟩
  unfold get_row_by_position
  rw [hline]
  rfl

/-- Witness for C7 at a concrete input: `extFileA` has 3 data rows and
requesting position 3 (= `rowCount()`) raises `IndexError`. -/
theorem out_of_range_position_raises_witness :
    rowCount extFileA ≤ 3 ∧ get_row_by_position extFileA ((3 : Nat) : Int) = .error .indexError :=
  ⟨by decide, (out_of_range_position_raises extFileA 3 (by decide)).2⟩

/-- C10: negative positions are silently accepted.  On a file with zero
header lines and at least one data row, `get_row_by_position(p)` for
`-rowCount() ≤ p ≤ -1` indexes the offsets array with Python negative
indexing, reads the line of data row `rowCount() + p`, and materializes a row
from it instead of raising `IndexError`. -/
theorem negative_position_accepted (f : CSVDataFile) (p : Int)
    (h0 : f.file_descriptor.lines_to_ignore = 0)
    (hlo : -(rowCount f : Int) ≤ p) (hhi : p ≤ -1) :
    ∃ l, f.lines.get? ((p + (rowCount f : Int)).toNat) = some l ∧
      getLineByPosition f p = .ok l ∧
      get_row_by_position f p = rowFromLine f.file_descriptor l p := by
  have hrc : rowCount f = f.lines.length := by unfold rowCount; omega
  have hlt : (p + (rowCount f : Int)).toNat < f.lines.length := by
    rw [hrc] at hlo ⊢
    omega
  obtain ⟨l, hl⟩ : ∃ l, f.lines.get? ((p + (rowCount f : Int)).toNat) = some l := by
    rw [List.get?_eq_get hlt]
    exact ⟨_, rfl⟩
  have hpy : pyIdx f.lines (p + (f.file_descriptor.lines_to_ignore : Int)) = some l := by
    unfold pyIdx
    rw [if_neg (by omega), if_pos (by rw [h0] at *; rw [hrc] at hlo; push_cast; omega)]
    rw [h0] at *
    rw [hrc] at hl
    convert hl using 2
    push_cast
    omega
  have hline : getLineByPosition f p = .ok l := by
    unfold getLineByPosition
    rw [hpy]
  refine ⟨l, hl, hline, ?_⟩
  unfold get_row_by_position
  rw [hline]
  rfl

/-- Witness for C10 at a concrete input: on `extFileA` (3 data rows, no
header line), position -1 reads the line of data row 2. -/
theorem negative_position_accepted_witness :
    ∃ l, extFileA.lines.get? (((-1 : Int) + (rowCount extFileA : Int)).toNat) = some l ∧
      getLineByPosition extFileA (-1) = .ok l ∧
      get_row_by_position extFileA (-1) = rowFromLine extFileA.file_descriptor l (-1) :=
  negative_position_accepted extFileA (-1) rfl (by decide) (by decide)

/-- C8: accessing (or building) the core-id index of a file whose descriptor
marks it as the core file raises `AttributeError` — loud and distinct from the
key-not-found outcome — and `get_all_rows_by_coreid` propagates that error;
on an extension file, looking up a key that never occurred returns the empty
list and is never an error. -/
theorem coreid_index_core_precondition (f : CSVDataFile) :
    (f.file_descriptor.represents_corefile = true →
      coreid_index f = .error .attributeError ∧
      ∀ k, get_all_rows_by_coreid f k = .error .attributeError) ∧
    (f.file_descriptor.represents_corefile = false →
      ∀ idx k, build_coreid_index f = .ok idx → k ∉ indexKeys idx →
        get_all_rows_by_coreid f (some k) = .ok []) := by
  constructor
  · intro hcore
    have hci : coreid_index f = .error .attributeError := by
      unfold coreid_index
      rw [if_pos hcore]
    refine ⟨hci, fun k => ?_⟩
    unfold get_all_rows_by_coreid
    rw [hci]
    rfl
  · intro hext idx k hidx hk
    have hci : coreid_index f = .ok idx := by
      unfold coreid_index
      rw [if_neg (by simp [hext]), hidx]
    unfold get_all_rows_by_coreid
    rw [hci]
    show (if (indexKeys idx).contains k = true then _ else Except.ok []) = Except.ok []
    rw [if_neg (by simpa using hk)]

/-- Witness for C8 at concrete inputs: the core file of the star-join
scenario raises, and looking up the never-occurring key "9" in `extFileA`'s
index yields the empty list. -/
theorem coreid_index_core_precondition_witness :
    coreid_index coreFile = .error .attributeError ∧
    get_all_rows_by_coreid extFileA (some "9") = .ok [] :=
  ⟨((coreid_index_core_precondition coreFile).1 rfl).1,
   (coreid_index_core_precondition extFileA).2 rfl [("1", [0, 1]), ("2", [2])] "9" rfl (by decide)⟩

/-- C9: row materialization is a pure function of (raw line, descriptor,
position) — the model's constructors are functions, so two materializations
of the same inputs are the same value — and the source's structural equality
(`__key`-tuple comparison) on such a row compares equal with itself: always
for an `ExtensionRow`, and for a `CoreRow` once `link_extension_files` and
`link_source_metadata` have been called (as `DwCAReader.next` does right
after construction) so that the `extensions` and `source_metadata` components
of `__key` are defined. -/
theorem row_materialization_deterministic (line : String) (pos : Int)
    (d : DataFileDescriptor) (efiles : List CSVDataFile)
    (asm : List (String × String)) :
    (∀ r, mkExtensionRow line pos d = .ok r → extRowEq r r = true) ∧
    (∀ r exts, mkCoreRow line pos d = .ok r →
      coreRowExtensions (link_source_metadata (link_extension_files r efiles) asm) = .ok exts →
      coreRowEq (link_source_metadata (link_extension_files r efiles) asm)
        (link_source_metadata (link_extension_files r efiles) asm) = .ok true) := by
  constructor
  · intro r _
    simp [extRowEq]
  · intro r exts _ hexts
    obtain ⟨key, hkey⟩ : ∃ key,
        coreRowKey (link_source_metadata (link_extension_files r efiles) asm) = .ok key := by
      unfold coreRowKey
      rw [hexts]
      exact ⟨_, rfl⟩
    simp [coreRowEq, hkey]
    show Except.ok (decide (key = key)) = Except.ok true
    simp

/-- Witness for C9 at concrete inputs: a concrete extension row and a
concrete linked core row each compare equal with themselves. -/
theorem row_materialization_deterministic_witness :
    (∃ r, mkExtensionRow "1,a\n" 0 extFileDescr = .ok r ∧ extRowEq r r = true) ∧
    (∃ r, mkCoreRow "1\n" 0 coreFileDescr = .ok r ∧
      coreRowEq (link_source_metadata (link_extension_files r []) [])
        (link_source_metadata (link_extension_files r []) []) = .ok true) :=
  ⟨⟨_, rfl, (row_materialization_deterministic "1,a\n" 0 extFileDescr [] []).1 _ rfl⟩,
   ⟨_, rfl, (row_materialization_deterministic "1\n" 0 coreFileDescr [] []).2 _ [] rfl rfl⟩⟩

/-- The accumulator form of `_get_all_line_offsets`: starting from offset
`off`, entry `i` is `off` plus the total encoded length of the first `i`
lines. -/
theorem lineOffsetsFrom_eq (encLen : String → Nat) (lines : List String) (off : Nat) :
    lineOffsetsFrom encLen off lines =
      (List.range lines.length).map (fun i => off + ((lines.take i).map encLen).sum) := by
  induction lines generalizing off with
  | nil => simp [lineOffsetsFrom]
  | cons l ls ih =>
    simp only [lineOffsetsFrom, List.length_cons, List.range_succ_eq_map, List.map_cons,
      List.take_zero, List.map_nil, List.sum_nil, Nat.add_zero, List.map_map, ih]
    refine congrArg _ ?_
    refine List.map_congr_left (fun i _ => ?_)
    simp [List.take_succ_cons, Nat.add_assoc]

/-- C3: the offset index built at construction has exactly one entry per
physical line (header and data lines alike), and entry `i` equals the total
encoded-byte length of lines `0..i-1` under the file's declared encoding
(`encLen` is an arbitrary per-line encoded-byte-length function, so the
statement covers multi-byte encodings and non-ASCII content); the byte stream
being the concatenation of the encoded lines, seeking to `offsets[i]`
positions the handle at the start of physical line `i`. -/
theorem offset_index_complete (encLen : String → Nat) (lines : List String) :
    (get_all_line_offsets lines encLen).length = lines.length ∧
    get_all_line_offsets lines encLen =
      (List.range lines.length).map (fun i => ((lines.take i).map encLen).sum) := by
  have h := lineOffsetsFrom_eq encLen lines 0
  simp only [Nat.zero_add] at h
  unfold get_all_line_offsets
  rw [h]
  simp

/-- Rejoin split fields with the delimiter: the left inverse of a naive
split. -/
def joinFields (d : Char) : List (List Char) → List Char
  | [] => []
  | f :: fs => f ++ (fs.map (fun g => d :: g)).flatten

/-- The csv scanner always returns at least one field. -/
theorem csvScan_ne_nil (quoting : Bool) (q d : Char) (st : QState) (cur s : List Char) :
    csvScan quoting q d st cur s ≠ [] := by
  induction s generalizing st cur with
  | nil => cases st <;> simp [csvScan]
  | cons c rest ih =>
    cases st <;> unfold csvScan <;>
      repeat' split
    all_goals first
      | exact ih _ _
      | simp

/-- Unfolding `joinFields` at a cons when the tail is nonempty. -/
theorem joinFields_cons_of_ne_nil (d : Char) (f : List Char) (fs : List (List Char))
    (h : fs ≠ []) : joinFields d (f :: fs) = f ++ d :: joinFields d fs := by
  obtain ⟨g, gs, rfl⟩ : ∃ g gs, fs = g :: gs := by
    cases fs with
    | nil => exact absurd rfl h
    | cons g gs => exact ⟨g, gs, rfl⟩
  simp [joinFields]

/-- With quoting disabled (`QUOTE_NONE`), the scanner is a plain split on the
delimiter: rejoining the fields restores the scanned characters exactly, so
no character is ever added, dropped or altered. -/
theorem csvScan_noQuote_join (q d : Char) (s : List Char) :
    ∀ (st : QState) (cur : List Char), (st = .startField ∨ st = .inField) →
      joinFields d (csvScan false q d st cur s) = cur.reverse ++ s := by
  induction s with
  | nil =>
    rintro st cur (rfl | rfl) <;> simp [csvScan, joinFields]
  | cons c rest ih =>
    rintro st cur (rfl | rfl) <;> unfold csvScan
    · rw [if_neg (by simp)]
      by_cases hc : c = d
      · rw [if_pos hc]
        rw [joinFields_cons_of_ne_nil d _ _ (csvScan_ne_nil false q d .startField [] rest)]
        rw [ih .startField [] (Or.inl rfl)]
        simp [hc]
      · rw [if_neg hc]
        rw [ih .inField (c :: cur) (Or.inr rfl)]
        simp
    · by_cases hc : c = d
      · rw [if_pos hc]
        rw [joinFields_cons_of_ne_nil d _ _ (csvScan_ne_nil false q d .startField [] rest)]
        rw [ih .startField [] (Or.inl rfl)]
        simp [hc]
      · rw [if_neg hc]
        rw [ih .inField (c :: cur) (Or.inr rfl)]
        simp

/-- The `QUOTE_NONE` parse of a line rejoins to the line itself. -/
theorem csvParse_noQuote_join (q d : Char) (line : String) :
    joinFields d (csvParse false q d line) = line.toList := by
  unfold csvParse
  by_cases h : line = ""
  · subst h
    simp [joinFields]
  · rw [if_neg h]
    rw [csvScan_noQuote_join q d line.toList .startField [] (Or.inl rfl)]
    simp

/-- `dropWhile` with an always-false predicate is the identity. -/
theorem dropWhile_const_false {α : Type} (l : List α) :
    l.dropWhile (fun _ => false) = l := by
  cases l <;> simp [List.dropWhile_cons]

/-- `strip("")` removes nothing. -/
theorem pyStripChars_nil (l : List Char) : pyStripChars l [] = l := by
  simp [pyStripChars, dropLeading, dropWhile_const_false]

/-- The head surviving a `dropWhile` fails the predicate. -/
theorem head?_dropWhile (p : Char → Bool) (l : List Char) (a : Char)
    (h : (l.dropWhile p).head? = some a) : p a = false := by
  induction l with
  | nil => simp [List.dropWhile] at h
  | cons c rest ih =>
    rw [List.dropWhile_cons] at h
    by_cases hc : p c = true
    · rw [if_pos hc] at h
      exact ih h
    · rw [if_neg hc] at h
      simp at h
      subst h
      simpa using hc

/-- `dropWhile` keeps the last element of the list when its result is
nonempty. -/
theorem getLast?_dropWhile (p : Char → Bool) (l : List Char)
    (h : l.dropWhile p ≠ []) : (l.dropWhile p).getLast? = l.getLast? := by
  induction l with
  | nil => simp [List.dropWhile] at h
  | cons c rest ih =>
    rw [List.dropWhile_cons]
    rw [List.dropWhile_cons] at h
    by_cases hc : p c = true
    · rw [if_pos hc] at h ⊢
      rw [ih h]
      cases rest with
      | nil => simp [List.dropWhile] at h
      | cons b bs => rw [List.getLast?_cons_cons]
    · rw [if_neg hc]

/-- A stripped field neither starts nor ends with a character of the strip
set: Python `strip` removes them all, not just one. -/
theorem pyStripChars_head_getLast (l chars : List Char) (a : Char) :
    ((pyStripChars l chars).head? = some a → chars.contains a = false) ∧
    ((pyStripChars l chars).getLast? = some a → chars.contains a = false) := by
  unfold pyStripChars
  constructor
  · intro h
    rw [List.head?_reverse] at h
    by_cases hne : (dropLeading chars l).reverse.dropWhile (chars.contains ·) = []
    · rw [hne] at h
      simp at h
    · rw [getLast?_dropWhile _ _ hne, List.getLast?_reverse] at h
      exact head?_dropWhile _ l a h
  · intro h
    rw [List.getLast?_reverse] at h
    exact head?_dropWhile _ _ a h

/-- Modelled from the spec: "strips exactly one leading and one trailing
enclosure character from each resulting field".  This definition follows the
claim's words (it is not in the source) and is used only to state, at the
counterexample, what the claim mandates in contrast to what the code does. -/
def stripOneEnclosure (q : Char) (s : String) : String :=
  let l := s.toList
  let l1 := if l.head? = some q then l.tail else l
  let l2 := if l1.getLast? = some q then l1.dropLast else l1
  l2.asString

/-- C4 counterexample: with enclosure character `"`, the raw field `abc""`
(a single field, so the enclosure-aware split is the identity on it) comes
out of `csv_line_to_fields` as `abc` — the code strips every leading and
trailing enclosure character via `str.strip` — whereas the claim mandates
stripping exactly one of each, i.e. `abc"`; so a field whose remaining
content ends with the enclosure character does not keep that character. -/
theorem enclosure_stripOne_counterexample :
    csv_line_to_fields "abc\"\"\n" "\n" ',' "\"" = .ok ["abc"] ∧
    stripOneEnclosure '"' "abc\"\"" = "abc\"" ∧
    (["abc"] : List String) ≠ ["abc\""] :=
  ⟨rfl, rfl, by decide⟩

/-- C4 (amended): with an empty `fields_enclosed_by` the split is naive on
the field terminator and never strips a character — the parse with quoting
disabled rejoins to the right-stripped line exactly, and the literal quote
characters of `"betta" splendens` and `'betta' splendens` pass through
unmodified; with a non-empty enclosure the splitter does not split on a
terminator inside an enclosed field and the enclosure is removed (`"Borneo,
Indonesia"` → `Borneo, Indonesia`, `"Borneo"` → `Borneo`), but all — not
exactly one — leading and trailing enclosure characters are stripped from
each field, so no resulting field ever begins or ends with the enclosure
character. -/
theorem enclosure_policy_amended :
    (∀ (line lt : String) (ft : Char),
      csv_line_to_fields line lt ft "" =
        .ok ((csvParse false '"' ft (pyRstrip line lt.toList)).map List.asString)) ∧
    (∀ (line : String) (q ft : Char),
      joinFields ft (csvParse false q ft line) = line.toList) ∧
    csv_line_to_fields "\"betta\" splendens\t'betta' splendens\n" "\n" '\t' "" =
      .ok ["\"betta\" splendens", "'betta' splendens"] ∧
    csv_line_to_fields "\"Borneo, Indonesia\",\"Borneo\"\n" "\n" ',' "\"" =
      .ok ["Borneo, Indonesia", "Borneo"] ∧
    (∀ (line lt : String) (ft q : Char) (fs : List String),
      csv_line_to_fields line lt ft (String.singleton q) = .ok fs →
      ∀ f ∈ fs, f.toList.head? ≠ some q ∧ f.toList.getLast? ≠ some q) := by
  refine ⟨fun line lt ft => ?_, fun line q ft => csvParse_noQuote_join q ft line, rfl, rfl,
    fun line lt ft q fs hfs => ?_⟩
  · unfold csv_line_to_fields
    rw [if_pos rfl]
    refine congrArg _ ?_
    refine List.map_congr_left (fun f _ => ?_)
    rw [pyStripChars_nil]
  · have hne : (String.singleton q : String) ≠ "" := by
      intro h
      simpa using congrArg String.toList h
    have hq : (String.singleton q).toList = [q] := rfl
    unfold csv_line_to_fields at hfs
    rw [if_neg hne, hq] at hfs
    simp only [Except.ok.injEq] at hfs
    intro f hf
    rw [← hfs] at hf
    simp only [List.mem_map] at hf
    obtain ⟨g, _, rfl⟩ := hf
    have hto : ((pyStripChars g [q]).asString).toList = pyStripChars g [q] := rfl
    rw [hto]
    constructor
    · intro hh
      have := (pyStripChars_head_getLast g [q] q).1 hh
      simp at this
    · intro hh
      have := (pyStripChars_head_getLast g [q] q).2 hh
      simp at this

/-- Witness for C4 at concrete inputs: the quoted field `"Borneo"` splits and
strips to `Borneo`, which indeed neither starts nor ends with the enclosure
character. -/
theorem enclosure_policy_amended_witness :
    csv_line_to_fields "\"Borneo\"\n" "\n" ',' (String.singleton '"') = .ok ["Borneo"] ∧
    ("Borneo" : String).toList.head? ≠ some '"' ∧
    ("Borneo" : String).toList.getLast? ≠ some '"' := by
  have h : csv_line_to_fields "\"Borneo\"\n" "\n" ',' (String.singleton '"') =
      .ok ["Borneo"] := rfl
  have h2 := enclosure_policy_amended.2.2.2.2 "\"Borneo\"\n" "\n" ',' '"' ["Borneo"] h
      "Borneo" (by simp)
  exact ⟨h, h2.1, h2.2⟩

/-- The value a field contributes to `self.data` when its `buildDataStep`
succeeds: the default if set, else the raw field at its column index. -/
def pureFieldValue (raws : List String) (f : FieldSpec) : String :=
  match f.default with
  | some v => v
  | none =>
    match f.index with
    | some i => (raws.get? i).getD ""
    | none => ""

/-- Looking up the key just assigned returns the assigned value. -/
theorem dictLookup_dictInsert_self (data : List (String × String)) (k v : String) :
    dictLookup (dictInsert data k v) k = some v := by
  induction data with
  | nil => simp [dictInsert, dictLookup, List.find?_cons]
  | cons p ps ih =>
    by_cases hp : p.1 == k
    · simp [dictInsert, hp, dictLookup, List.find?_cons]
    · simp only [dictInsert, hp, Bool.false_eq_true, if_false]
      unfold dictLookup
      simp only [List.find?_cons, hp]
      exact ih

/-- Assigning one key leaves the other keys' values unchanged. -/
theorem dictLookup_dictInsert_ne (data : List (String × String)) (k v k' : String)
    (h : k' ≠ k) : dictLookup (dictInsert data k v) k' = dictLookup data k' := by
  have hkk : ((k : String) == k') = false := by
    simp only [beq_eq_false_iff_ne, ne_eq]
    exact fun hh => h hh.symm
  induction data with
  | nil =>
    unfold dictLookup dictInsert
    simp [List.find?_cons, hkk]
  | cons p ps ih =>
    by_cases hp : p.1 == k
    · have hpk : p.1 = k := by simpa using hp
      simp only [dictInsert, hp, if_true]
      unfold dictLookup
      simp only [List.find?_cons, hkk, hpk]
    · simp only [dictInsert, hp, Bool.false_eq_true, if_false]
      by_cases hp' : p.1 == k'
      · unfold dictLookup
        simp only [List.find?_cons, hp']
      · unfold dictLookup
        simp only [List.find?_cons, hp', Bool.false_eq_true]
        exact ih

/-- A field with a default assigns that default, whatever the raw fields. -/
theorem buildDataStep_default (raws : List String) (acc : List (String × String))
    (f : FieldSpec) (v : String) (hd : f.default = some v) :
    buildDataStep raws acc f = .ok (dictInsert acc f.term (pureFieldValue raws f)) := by
  simp only [buildDataStep, pureFieldValue, hd]

/-- A defaultless field with an in-range column index assigns the raw field
at that index. -/
theorem buildDataStep_indexed (raws : List String) (acc : List (String × String))
    (f : FieldSpec) (i : Nat) (x : String) (hd : f.default = none) (hi : f.index = some i)
    (hx : raws.get? i = some x) :
    buildDataStep raws acc f = .ok (dictInsert acc f.term (pureFieldValue raws f)) := by
  simp only [buildDataStep, pureFieldValue, hd, hi, hx, Option.getD_some]

/-- A defaultless field whose column index is out of range raises the
archive-inconsistency error. -/
theorem buildDataStep_outOfRange (raws : List String) (acc : List (String × String))
    (f : FieldSpec) (i : Nat) (hd : f.default = none) (hi : f.index = some i)
    (hx : raws.get? i = none) :
    buildDataStep raws acc f = .error .invalidArchive := by
  simp only [buildDataStep, hd, hi, hx]

/-- Fields whose terms differ from `t` never change the value of `t`. -/
theorem foldl_dictInsert_lookup_untouched (raws : List String) (t : String) :
    ∀ (fields : List FieldSpec), (∀ f ∈ fields, f.term ≠ t) →
      ∀ acc, dictLookup
          (fields.foldl (fun data f => dictInsert data f.term (pureFieldValue raws f)) acc) t =
        dictLookup acc t := by
  intro fields
  induction fields with
  | nil => intro _ acc; rfl
  | cons g gs ih =>
    intro h acc
    rw [List.foldl_cons]
    rw [ih (fun f hf => h f (by simp [hf])) _]
    exact dictLookup_dictInsert_ne _ _ _ _ (fun hh => h g (by simp) hh.symm)

/-- With pairwise-distinct terms, the built dictionary maps every field's
term to that field's value. -/
theorem foldl_dictInsert_lookup_found (raws : List String) :
    ∀ (fields : List FieldSpec) (f : FieldSpec), f ∈ fields →
      (fields.map FieldSpec.term).Nodup →
      ∀ acc, dictLookup
          (fields.foldl (fun data f => dictInsert data f.term (pureFieldValue raws f)) acc)
          f.term = some (pureFieldValue raws f) := by
  intro fields
  induction fields with
  | nil => intro f hf; simp at hf
  | cons g gs ih =>
    intro f hf hnd acc
    rw [List.map_cons, List.nodup_cons] at hnd
    rcases List.mem_cons.mp hf with rfl | hmem
    · rw [List.foldl_cons]
      rw [foldl_dictInsert_lookup_untouched raws f.term gs
        (fun f' hf' hh => hnd.1 (hh ▸ List.mem_map_of_mem FieldSpec.term hf')) _]
      exact dictLookup_dictInsert_self _ _ _
    · rw [List.foldl_cons]
      exact ih f hmem hnd.2 _

/-- When every defaultless field has an in-range index, the field loop
succeeds and builds the dictionary of pure field values. -/
theorem foldlM_buildDataStep_ok (raws : List String) :
    ∀ (fields : List FieldSpec),
      (∀ f ∈ fields, f.default = none → ∃ i, f.index = some i ∧ i < raws.length) →
      ∀ acc, fields.foldlM (buildDataStep raws) acc =
        .ok (fields.foldl (fun data f => dictInsert data f.term (pureFieldValue raws f)) acc) := by
  intro fields
  induction fields with
  | nil => intro _ acc; rfl
  | cons g gs ih =>
    intro h acc
    have hstep : buildDataStep raws acc g =
        .ok (dictInsert acc g.term (pureFieldValue raws g)) := by
      cases hdv : g.default with
      | some v => exact buildDataStep_default raws acc g v hdv
      | none =>
        obtain ⟨i, hi, hlt⟩ := h g (by simp) hdv
        obtain ⟨x, hx⟩ : ∃ x, raws.get? i = some x := by
          rw [List.get?_eq_get hlt]
          exact ⟨_, rfl⟩
        exact buildDataStep_indexed raws acc g i x hdv hi hx
    rw [List.foldlM_cons, hstep]
    show gs.foldlM (buildDataStep raws) (dictInsert acc g.term (pureFieldValue raws g)) = _
    rw [ih (fun f hf => h f (by simp [hf])) _]
    rw [List.foldl_cons]

/-- When some defaultless field's index is out of range (and no field hits
the unrelated `TypeError` case), the field loop fails with the
archive-inconsistency error, from any starting dictionary. -/
theorem foldlM_buildDataStep_error (raws : List String) :
    ∀ (fields : List FieldSpec),
      (∀ f ∈ fields, f.default = none → f.index.isSome) →
      (∃ f ∈ fields, f.default = none ∧ ∃ i, f.index = some i ∧ raws.length ≤ i) →
      ∀ acc, fields.foldlM (buildDataStep raws) acc = .error .invalidArchive := by
  intro fields
  induction fields with
  | nil => intro _ hbad; simp at hbad
  | cons g gs ih =>
    intro hok hbad acc
    rw [List.foldlM_cons]
    by_cases hgbad : g.default = none ∧ ∃ i, g.index = some i ∧ raws.length ≤ i
    · obtain ⟨hd, i, hi, hge⟩ := hgbad
      rw [buildDataStep_outOfRange raws acc g i hd hi (List.get?_eq_none.mpr hge)]
      rfl
    · have hstep : buildDataStep raws acc g =
          .ok (dictInsert acc g.term (pureFieldValue raws g)) := by
        cases hdv : g.default with
        | some v => exact buildDataStep_default raws acc g v hdv
        | none =>
          obtain ⟨i, hi⟩ := Option.isSome_iff_exists.mp (hok g (by simp) hdv)
          have hlt : i < raws.length := by
            by_contra hge
            exact hgbad ⟨hdv, i, hi, by omega⟩
          obtain ⟨x, hx⟩ : ∃ x, raws.get? i = some x := by
            rw [List.get?_eq_get hlt]
            exact ⟨_, rfl⟩
          exact buildDataStep_indexed raws acc g i x hdv hi hx
      rw [hstep]
      have hbad' : ∃ f ∈ gs, f.default = none ∧ ∃ i, f.index = some i ∧ raws.length ≤ i := by
        obtain ⟨f, hf, hrest⟩ := hbad
        rcases List.mem_cons.mp hf with rfl | hmem
        · exact absurd hrest hgbad
        · exact ⟨f, hmem, hrest⟩
      show gs.foldlM (buildDataStep raws) _ = _
      exact ih (fun f hf => hok f (by simp [hf])) hbad' _

/-- Bind of a success in the `Except` monad. -/
theorem exceptBind_ok {α β : Type} (a : α) (f : α → Except PyError β) :
    (Except.ok a >>= f) = f a := rfl

/-- A successfully constructed `ExtensionRow` carries exactly the split raw
fields and the built data dictionary. -/
theorem mkExtensionRow_fields (line : String) (pos : Int) (d : DataFileDescriptor)
    (raws : List String) (data : List (String × String)) (r : ExtensionRow)
    (hraws : csv_line_to_fields line d.lines_terminated_by d.fields_terminated_by
      d.fields_enclosed_by = .ok raws)
    (hdata : buildData d.fields raws = .ok data)
    (hr : mkExtensionRow line pos d = .ok r) :
    r.raw_fields = raws ∧ r.data = data := by
  unfold mkExtensionRow at hr
  rw [hraws, exceptBind_ok, hdata, exceptBind_ok] at hr
  cases hci : d.coreid_index with
  | none => simp [hci] at hr
  | some i =>
    simp only [hci] at hr
    cases hgi : raws.get? i with
    | none =>
      rw [hgi] at hr
      exact Except.noConfusion hr
    | some cid =>
      rw [hgi] at hr
      obtain rfl := Except.ok.inj hr
      exact ⟨rfl, rfl⟩

/-- A successfully constructed `CoreRow` carries exactly the split raw fields
and the built data dictionary. -/
theorem mkCoreRow_fields (line : String) (pos : Int) (d : DataFileDescriptor)
    (raws : List String) (data : List (String × String)) (r : CoreRow)
    (hraws : csv_line_to_fields line d.lines_terminated_by d.fields_terminated_by
      d.fields_enclosed_by = .ok raws)
    (hdata : buildData d.fields raws = .ok data)
    (hr : mkCoreRow line pos d = .ok r) :
    r.raw_fields = raws ∧ r.data = data := by
  unfold mkCoreRow at hr
  rw [hraws, exceptBind_ok, hdata, exceptBind_ok] at hr
  cases hci : d.id_index with
  | none =>
    simp only [hci, Except.ok.injEq] at hr
    subst hr
    exact ⟨rfl, rfl⟩
  | some i =>
    simp only [hci] at hr
    cases hgi : raws.get? i with
    | none =>
      rw [hgi] at hr
      exact Except.noConfusion hr
    | some v =>
      rw [hgi] at hr
      obtain rfl := Except.ok.inj hr
      exact ⟨rfl, rfl⟩

/-- C5: in a row materialization whose line splits into `raws`, every schema
field with a set column index (and no default) gets `raws[columnIndex]` in
the row's data dictionary, every field with a default and no column index
gets that default whatever the raw fields are, and whenever some defaultless
field's column index is out of range for the split line, row construction —
core and extension alike — fails with the `InvalidArchive` error instead of
silently producing a value. -/
theorem row_field_materialization (d : DataFileDescriptor) (line : String) (pos : Int)
    (raws : List String)
    (hraws : csv_line_to_fields line d.lines_terminated_by d.fields_terminated_by
      d.fields_enclosed_by = .ok raws) :
    ((∀ f ∈ d.fields, f.default = none → ∃ i, f.index = some i ∧ i < raws.length) →
      ∃ data, buildData d.fields raws = .ok data ∧
        (∀ r, mkExtensionRow line pos d = .ok r → r.raw_fields = raws ∧ r.data = data) ∧
        (∀ r, mkCoreRow line pos d = .ok r → r.raw_fields = raws ∧ r.data = data) ∧
        ((d.fields.map FieldSpec.term).Nodup →
          ∀ f ∈ d.fields,
            (∀ i, f.default = none → f.index = some i →
              dictLookup data f.term = raws.get? i) ∧
            (∀ v, f.default = some v → dictLookup data f.term = some v))) ∧
    ((∀ f ∈ d.fields, f.default = none → f.index.isSome) →
     (∃ f ∈ d.fields, f.default = none ∧ ∃ i, f.index = some i ∧ raws.length ≤ i) →
      buildData d.fields raws = .error .invalidArchive ∧
      rowFromLine d line pos = .error .invalidArchive) := by
  constructor
  · intro hin
    have hdata : buildData d.fields raws =
        .ok (d.fields.foldl (fun data f => dictInsert data f.term (pureFieldValue raws f)) []) :=
      foldlM_buildDataStep_ok raws d.fields hin []
    refine ⟨_, hdata, fun r hr => mkExtensionRow_fields line pos d raws _ r hraws hdata hr,
      fun r hr => mkCoreRow_fields line pos d raws _ r hraws hdata hr,
      fun hnd f hf => ⟨fun i hdef hidx => ?_, fun v hdef => ?_⟩⟩
    · have hfound := foldl_dictInsert_lookup_found raws d.fields f hf hnd []
      obtain ⟨i', hi', hlt⟩ := hin f hf hdef
      rw [hidx] at hi'
      injection hi' with hii
      subst hii
      obtain ⟨x, hx⟩ : ∃ x, raws.get? i = some x := by
        rw [List.get?_eq_get hlt]
        exact ⟨_, rfl⟩
      rw [hfound, hx]
      simp only [pureFieldValue, hdef, hidx, hx, Option.getD_some]
    · have hfound := foldl_dictInsert_lookup_found raws d.fields f hf hnd []
      rw [hfound]
      simp only [pureFieldValue, hdef]
  · intro hok hbad
    have herr : buildData d.fields raws = .error .invalidArchive :=
      foldlM_buildDataStep_error raws d.fields hok hbad []
    refine ⟨herr, ?_⟩
    unfold rowFromLine
    by_cases hc : d.represents_corefile = true
    · rw [if_pos hc]
      have hcore : mkCoreRow line pos d = .error .invalidArchive := by
        unfold mkCoreRow
        rw [hraws, exceptBind_ok, herr]
        rfl
      rw [hcore]
      rfl
    · rw [if_neg hc]
      have hextr : mkExtensionRow line pos d = .error .invalidArchive := by
        unfold mkExtensionRow
        rw [hraws, exceptBind_ok, herr]
        rfl
      rw [hextr]
      rfl

/-- Descriptor with one indexed field and one default-only field, for the C5
witness. -/
def demoFieldsDescr : DataFileDescriptor :=
  ⟨true, none, none, none,
    [⟨"t1", some 0, none⟩, ⟨"country", none, some "Belgium"⟩],
    "\n", "", ',', 0⟩

/-- Descriptor referencing column 5 of a one-column file, for the C5
witness. -/
def demoBadDescr : DataFileDescriptor :=
  ⟨true, none, none, none, [⟨"t9", some 5, none⟩], "\n", "", ',', 0⟩

/-- Witness for C5 at concrete inputs: on the line `A,B` the indexed field
gets `A` and the default field gets `Belgium`; with the bad descriptor the
construction fails with the `InvalidArchive` error. -/
theorem row_field_materialization_witness :
    (∃ data, buildData demoFieldsDescr.fields ["A", "B"] = .ok data ∧
      dictLookup data "t1" = some "A" ∧ dictLookup data "country" = some "Belgium") ∧
    buildData demoBadDescr.fields ["A"] = .error .invalidArchive ∧
    rowFromLine demoBadDescr "A\n" 0 = .error .invalidArchive := by
  have hin : ∀ f ∈ demoFieldsDescr.fields, f.default = none →
      ∃ i, f.index = some i ∧ i < (["A", "B"] : List String).length := by
    intro f hf hdef
    rcases List.mem_cons.mp hf with rfl | hf2
    · exact ⟨0, rfl, by decide⟩
    · rcases List.mem_singleton.mp hf2 with rfl
      exact Option.noConfusion hdef
  obtain ⟨data, hdata, _, _, hlook⟩ :=
    (row_field_materialization demoFieldsDescr "A,B\n" 0 ["A", "B"] rfl).1 hin
  have hnd : (demoFieldsDescr.fields.map FieldSpec.term).Nodup := by decide
  have hbadok : ∀ f ∈ demoBadDescr.fields, f.default = none → f.index.isSome := by
    intro f hf _
    rcases List.mem_singleton.mp hf with rfl
    rfl
  have hbad : ∃ f ∈ demoBadDescr.fields, f.default = none ∧
      ∃ i, f.index = some i ∧ (["A"] : List String).length ≤ i :=
    ⟨⟨"t9", some 5, none⟩, by decide, rfl, 5, rfl, by decide⟩
  have herr := (row_field_materialization demoBadDescr "A\n" 0 ["A"] rfl).2 hbadok hbad
  refine ⟨⟨data, hdata, ?_, ?_⟩, herr.1, herr.2⟩
  · have h1 := (hlook hnd ⟨"t1", some 0, none⟩ (by decide)).1 0 rfl rfl
    simpa using h1
  · exact (hlook hnd ⟨"country", none, some "Belgium"⟩ (by decide)).2 "Belgium" rfl
